import Mathlib

set_option maxHeartbeats 1000000
set_option maxRecDepth 4000

/-!
Shallow embedding of `process-leads.py`: raw Google-Maps JSON dumps are turned
into deduplicated, sorted lead lists plus preview samples.

Modelling conventions:
* Python/JSON values are `PyVal`; JSON numbers are modelled as integers only.
  Number literals with a fractional part or exponent denote Python floats;
  floating point is outside this embedding and such literals are rejected by
  the model parser (no claim depends on float inputs).
* A raised Python exception is `Except.error PyErr.exc`; exception identity
  (class, message) is not modelled, only the fact that an exception escapes.
* Python dicts are association lists; lookup follows Python/JSON semantics in
  which a later duplicate key shadows an earlier one.
* Python set membership (`pid in seen`) uses equality of hashable values;
  `seen` only ever holds values that passed the hashability check, and adding
  an unhashable value (list/dict) raises, as in CPython.
-/

inductive PyErr where
  | exc
deriving Repr, DecidableEq

inductive PyVal where
  | none
  | bool (b : Bool)
  | int (n : Int)
  | str (s : String)
  | list (xs : List PyVal)
  | dict (kvs : List (String × PyVal))
deriving Repr

/-- Python truthiness (`bool(v)`): None/False/0/""/empty containers are falsy. -/
def truthy : PyVal → Bool
  | PyVal.none => false
  | PyVal.bool b => b
  | PyVal.int n => n != 0
  | PyVal.str s => s != ""
  | PyVal.list xs => !xs.isEmpty
  | PyVal.dict kvs => !kvs.isEmpty

/-- Python hashability: scalars are hashable, lists and dicts are not. -/
def hashable : PyVal → Bool
  | PyVal.list _ => false
  | PyVal.dict _ => false
  | _ => true

/-- Python `==` restricted to hashable scalar values, as used for set
membership of `placeId`s (`True == 1` holds, cross-type otherwise False). -/
def scalarEq : PyVal → PyVal → Bool
  | PyVal.none, PyVal.none => true
  | PyVal.bool a, PyVal.bool b => a == b
  | PyVal.bool a, PyVal.int n => (if a then (1 : Int) else 0) == n
  | PyVal.int n, PyVal.bool a => n == (if a then (1 : Int) else 0)
  | PyVal.int a, PyVal.int b => a == b
  | PyVal.str a, PyVal.str b => a == b
  | _, _ => false

/-- Canonical form of a scalar: booleans collapse to 0/1, mirroring Python
`hash`/`==` identification of `True` with `1`. -/
def canon : PyVal → PyVal
  | PyVal.bool b => PyVal.int (if b then 1 else 0)
  | v => v

/-- `x in seen` for a Python set modelled as the list of added elements. -/
def pyMem (x : PyVal) (l : List PyVal) : Bool :=
  l.any (fun y => scalarEq x y)

/-- Python dict lookup: the last binding of a key wins. -/
def dLookup (kvs : List (String × PyVal)) (k : String) : Option PyVal :=
  match kvs with
  | [] => Option.none
  | (k2, v) :: rest =>
    match dLookup rest k with
    | Option.some v2 => Option.some v2
    | Option.none => if k2 = k then Option.some v else Option.none

/-- Python `d.get(k, default)`. -/
def dGet (kvs : List (String × PyVal)) (k : String) (d : PyVal) : PyVal :=
  (dLookup kvs k).getD d

/-- Python `a or b`. -/
def pyOr (a b : PyVal) : PyVal :=
  if truthy a then a else b

/-- Whitespace stripped by Python `str.strip`/`str.lstrip` (ASCII subset of
Python's Unicode whitespace; the inputs of interest are ASCII). -/
def pyWs (c : Char) : Bool :=
  c == ' ' || c == '\t' || c == '\n' || c == '\r' || c == '\x0b' || c == '\x0c'

/-- Python `str.strip()`. -/
def pyStrip (s : String) : String :=
  String.mk (((s.data.dropWhile pyWs).reverse.dropWhile pyWs).reverse)

def digitsToNat (ds : List Char) : Nat :=
  ds.foldl (fun a c => a * 10 + (c.toNat - 48)) 0

/-- Python `int(s)` on a string: optional surrounding whitespace, optional
sign, then decimal digits (digit-group underscores are not modelled). -/
def parsePyIntStr (s : String) : Option Int :=
  match ((s.data.dropWhile pyWs).reverse.dropWhile pyWs).reverse with
  | [] => Option.none
  | c :: t =>
    let body := if c == '-' || c == '+' then t else c :: t
    if body.isEmpty then Option.none
    else if body.all Char.isDigit then
      Option.some (if c == '-' then -(digitsToNat body : Int) else (digitsToNat body : Int))
    else Option.none

/-- Python `int(v)` as used for the sort key: ints pass through, booleans
become 0/1, numeric strings are parsed, everything else raises. -/
def pyInt : PyVal → Except PyErr Int
  | PyVal.int n => Except.ok n
  | PyVal.bool b => Except.ok (if b then 1 else 0)
  | PyVal.str s =>
    match parsePyIntStr s with
    | Option.some n => Except.ok n
    | Option.none => Except.error PyErr.exc
  | _ => Except.error PyErr.exc

/-! JSON parsing (`json.loads`), recursive descent with fuel.  Strict JSON as
CPython's `json` module accepts it, except: number literals with a fraction
or exponent (floats), `NaN`/`Infinity`, and astral `\u` surrogate pairs are
outside the model (rejected). -/

/-- Whitespace accepted between JSON tokens (exactly CPython's `json`). -/
def jWs (c : Char) : Bool :=
  c == ' ' || c == '\t' || c == '\n' || c == '\r'

def skipWs (cs : List Char) : List Char :=
  cs.dropWhile jWs

def escChar (e : Char) : Option Char :=
  if e == '"' then Option.some '"'
  else if e == '\\' then Option.some '\\'
  else if e == '/' then Option.some '/'
  else if e == 'n' then Option.some '\n'
  else if e == 't' then Option.some '\t'
  else if e == 'r' then Option.some '\r'
  else if e == 'b' then Option.some '\x08'
  else if e == 'f' then Option.some '\x0c'
  else Option.none

def hexVal (c : Char) : Option Nat :=
  if '0' ≤ c ∧ c ≤ '9' then Option.some (c.toNat - 48)
  else if 'a' ≤ c ∧ c ≤ 'f' then Option.some (c.toNat - 87)
  else if 'A' ≤ c ∧ c ≤ 'F' then Option.some (c.toNat - 55)
  else Option.none

/-- JSON string body after the opening quote: returns contents and rest. -/
def parseStringLoop : List Char → Option (List Char × List Char)
  | [] => Option.none
  | c :: cs =>
    if c == '"' then Option.some ([], cs)
    else if c == '\\' then
      match cs with
      | [] => Option.none
      | e :: cs2 =>
        if e == 'u' then
          match cs2 with
          | a :: b :: c3 :: d :: cs3 =>
            match hexVal a, hexVal b, hexVal c3, hexVal d with
            | Option.some va, Option.some vb, Option.some vc, Option.some vd =>
              (parseStringLoop cs3).map
                (fun p => (Char.ofNat (va * 4096 + vb * 256 + vc * 16 + vd) :: p.1, p.2))
            | _, _, _, _ => Option.none
          | _ => Option.none
        else
          match escChar e with
          | Option.some r => (parseStringLoop cs2).map (fun p => (r :: p.1, p.2))
          | Option.none => Option.none
    else if c.toNat < 32 then Option.none
    else (parseStringLoop cs).map (fun p => (c :: p.1, p.2))

/-- Integer-ending check for a JSON number: a following `.`/`e`/`E` would make
it a float literal, which the model rejects (see module comment). -/
def checkIntEnd (neg : Bool) (n : Nat) (rest : List Char) : Option (PyVal × List Char) :=
  match rest with
  | c :: _ =>
    if c == '.' || c == 'e' || c == 'E' then Option.none
    else Option.some (PyVal.int (if neg then -(n : Int) else (n : Int)), rest)
  | [] => Option.some (PyVal.int (if neg then -(n : Int) else (n : Int)), rest)

/-- JSON number (integer part; strict JSON grammar, no leading zeros). -/
def parseNumber (cs : List Char) : Option (PyVal × List Char) :=
  match cs with
  | [] => Option.none
  | c0 :: t0 =>
    let neg := c0 == '-'
    let cs1 := if neg then t0 else c0 :: t0
    match cs1 with
    | [] => Option.none
    | d :: t =>
      if d == '0' then checkIntEnd neg 0 t
      else if d.isDigit then
        checkIntEnd neg (digitsToNat (d :: t.takeWhile Char.isDigit)) (t.dropWhile Char.isDigit)
      else Option.none

mutual

def parseVal : Nat → List Char → Option (PyVal × List Char)
  | 0, _ => Option.none
  | Nat.succ fuel, cs =>
    match skipWs cs with
    | [] => Option.none
    | c :: rest =>
      if c == '"' then
        (parseStringLoop rest).map (fun p => (PyVal.str (String.mk p.1), p.2))
      else if c == '[' then
        match skipWs rest with
        | ']' :: r2 => Option.some (PyVal.list [], r2)
        | _ => (parseArrayItems fuel rest).map (fun p => (PyVal.list p.1, p.2))
      else if c == '{' then
        match skipWs rest with
        | '}' :: r2 => Option.some (PyVal.dict [], r2)
        | _ => (parseObjItems fuel rest).map (fun p => (PyVal.dict p.1, p.2))
      else if c == 't' then
        match rest with
        | 'r' :: 'u' :: 'e' :: r => Option.some (PyVal.bool true, r)
        | _ => Option.none
      else if c == 'f' then
        match rest with
        | 'a' :: 'l' :: 's' :: 'e' :: r => Option.some (PyVal.bool false, r)
        | _ => Option.none
      else if c == 'n' then
        match rest with
        | 'u' :: 'l' :: 'l' :: r => Option.some (PyVal.none, r)
        | _ => Option.none
      else if c == '-' || c.isDigit then parseNumber (c :: rest)
      else Option.none

def parseArrayItems : Nat → List Char → Option (List PyVal × List Char)
  | 0, _ => Option.none
  | Nat.succ fuel, cs =>
    match parseVal fuel cs with
    | Option.none => Option.none
    | Option.some (v, r) =>
      match skipWs r with
      | ',' :: r2 => (parseArrayItems fuel r2).map (fun p => (v :: p.1, p.2))
      | ']' :: r2 => Option.some ([v], r2)
      | _ => Option.none

def parseObjItems : Nat → List Char → Option (List (String × PyVal) × List Char)
  | 0, _ => Option.none
  | Nat.succ fuel, cs =>
    match skipWs cs with
    | '"' :: r =>
      match parseStringLoop r with
      | Option.none => Option.none
      | Option.some (k, r2) =>
        match skipWs r2 with
        | ':' :: r3 =>
          match parseVal fuel r3 with
          | Option.none => Option.none
          | Option.some (v, r4) =>
            match skipWs r4 with
            | ',' :: r5 => (parseObjItems fuel r5).map (fun p => ((String.mk k, v) :: p.1, p.2))
            | '}' :: r5 => Option.some ([(String.mk k, v)], r5)
            | _ => Option.none
        | _ => Option.none
    | _ => Option.none

end

/-- `json.loads`: parse the whole string, allowing surrounding whitespace;
`Option.none` models `json.JSONDecodeError` being raised. -/
def json_loads (s : String) : Option PyVal :=
  match parseVal (2 * s.length + 2) s.data with
  | Option.none => Option.none
  | Option.some (v, rest) => if (skipWs rest).isEmpty then Option.some v else Option.none

/-! The Extractor: `extract_json_from_raw`, three strategies in order. -/

/-- `pat` is a leading substring of `text` (Python `str.startswith`). -/
def startsList : List Char → List Char → Bool
  | [], _ => true
  | _ :: _, [] => false
  | p :: ps, c :: cs => p == c && startsList ps cs

/-- Python `text.find(pat)`: index of the first occurrence, if any. -/
def findSub (text pat : List Char) : Option Nat :=
  match text with
  | [] => if startsList pat [] then Option.some 0 else Option.none
  | c :: rest =>
    if startsList pat (c :: rest) then Option.some 0
    else (findSub rest pat).map (fun n => n + 1)

/-- The strategy-2 while loop: scan forward counting `[`/`]` nesting (string
contents included, as in the source); returns the number of characters
consumed when the depth first returns to zero. -/
def bracketScan : List Char → Int → Option Nat
  | [], _ => Option.none
  | c :: rest, depth =>
    if c == '[' then (bracketScan rest (depth + 1)).map (fun n => n + 1)
    else if c == ']' then
      if depth - 1 = 0 then Option.some 1
      else (bracketScan rest (depth - 1)).map (fun n => n + 1)
    else (bracketScan rest depth).map (fun n => n + 1)

/-- Whitespace matched by the regex `\s` (ASCII subset). -/
def reWs (c : Char) : Bool :=
  c == ' ' || c == '\t' || c == '\n' || c == '\r' || c == '\x0b' || c == '\x0c'

/-- Tail of the strategy-3 regex after the lazy gap: the shortest split at
which a closing brace followed by optional whitespace and a closing square
bracket matches; returns the consumed characters and the rest. -/
def matchTail : List Char → Option (List Char × List Char)
  | [] => Option.none
  | c :: cs =>
    if c == '}' then
      match cs.dropWhile reWs with
      | ']' :: r2 => Option.some ('}' :: (cs.takeWhile reWs ++ [']']), r2)
      | _ => (matchTail cs).map (fun p => (c :: p.1, p.2))
    else (matchTail cs).map (fun p => (c :: p.1, p.2))

/-- Match of the strategy-3 regex anchored at the current position. -/
def matchArrayAt (cs : List Char) : Option (List Char) :=
  match cs with
  | '[' :: r =>
    match r.dropWhile reWs with
    | '{' :: r2 => (matchTail r2).map (fun p => '[' :: (r.takeWhile reWs ++ '{' :: p.1))
    | _ => Option.none
  | _ => Option.none

/-- `re.search` of the strategy-3 pattern: leftmost match position, lazy gap. -/
def regexArraySearch : List Char → Option (List Char)
  | [] => Option.none
  | c :: rest =>
    match matchArrayAt (c :: rest) with
    | Option.some m => Option.some m
    | Option.none => regexArraySearch rest

/-- The literal anchor of strategy 2. -/
def markerChars : List Char :=
  String.data "[\x7b\"title\""

/-- Strategy 3: regex search for any bracketed object, parse the first match;
a parse failure here is caught (`except JSONDecodeError: pass`). -/
def strat3 (content : String) : Except PyErr (Option PyVal) :=
  match regexArraySearch content.data with
  | Option.some m =>
    match json_loads (String.mk m) with
    | Option.some v => Except.ok (Option.some v)
    | Option.none => Except.ok Option.none
  | Option.none => Except.ok Option.none

/-- `extract_json_from_raw(content)`.  `Except.ok Option.none` models the
`return None` fall-through; `Except.error` models an uncaught exception
(the strategy-1 and strategy-2 `json.loads` calls are not guarded). -/
def extract_json_from_raw (content : String) : Except PyErr (Option PyVal) :=
  if startsList (String.data "[\x7b") (content.data.dropWhile pyWs) then
    match json_loads content with
    | Option.some v => Except.ok (Option.some v)
    | Option.none => Except.error PyErr.exc
  else
    match findSub content.data markerChars with
    | Option.some start =>
      match bracketScan (content.data.drop start) 0 with
      | Option.some len =>
        match json_loads (String.mk ((content.data.drop start).take len)) with
        | Option.some v => Except.ok (Option.some v)
        | Option.none => Except.error PyErr.exc
      | Option.none => strat3 content
    | Option.none => strat3 content

/-! The Transformer: `extract_row`, the dedup/filter loop, the sort. -/

/-- The fixed-schema output row (the twelve CSV columns, in order). -/
structure Row where
  businessName : PyVal
  category : PyVal
  address : PyVal
  city : PyVal
  state : PyVal
  postalCode : PyVal
  phone : PyVal
  website : PyVal
  rating : PyVal
  reviewCount : PyVal
  latitude : PyVal
  longitude : PyVal
deriving Repr

/-- `extract_row(place)` for a dict record: every missing field defaults to
the empty string; `loc = place.get("location", {}) or {}` raises
(`AttributeError`) when the location value is truthy but not a dict. -/
def extract_row (kvs : List (String × PyVal)) : Except PyErr Row :=
  match pyOr (dGet kvs "location" (PyVal.dict [])) (PyVal.dict []) with
  | PyVal.dict l =>
    Except.ok
      ⟨dGet kvs "title" (PyVal.str ""),
       dGet kvs "categoryName" (PyVal.str ""),
       dGet kvs "address" (PyVal.str ""),
       dGet kvs "city" (PyVal.str ""),
       dGet kvs "state" (PyVal.str ""),
       dGet kvs "postalCode" (PyVal.str ""),
       dGet kvs "phone" (PyVal.str ""),
       dGet kvs "website" (PyVal.str ""),
       dGet kvs "totalScore" (PyVal.str ""),
       dGet kvs "reviewsCount" (PyVal.str ""),
       dGet l "lat" (PyVal.str ""),
       dGet l "lng" (PyVal.str "")⟩
  | _ => Except.error PyErr.exc

/-- The dedup/closed-filter loop of `process_niche` (lines 107-117): iterate
records in order, skip a truthy already-seen `placeId`, record the id as
seen, drop closed records, and build the row for each survivor.  A non-dict
record or an unhashable `placeId` raises. -/
def dedupRows (seen : List PyVal) : List PyVal → Except PyErr (List Row)
  | [] => Except.ok []
  | place :: rest =>
    match place with
    | PyVal.dict kvs =>
      let pid := dGet kvs "placeId" (PyVal.str "")
      if truthy pid && hashable pid && pyMem pid seen then
        dedupRows seen rest
      else if hashable pid then
        if truthy (dGet kvs "permanentlyClosed" PyVal.none) then
          dedupRows (pid :: seen) rest
        else
          match extract_row kvs with
          | Except.error e => Except.error e
          | Except.ok r =>
            match dedupRows (pid :: seen) rest with
            | Except.error e => Except.error e
            | Except.ok rs => Except.ok (r :: rs)
      else Except.error PyErr.exc
    | _ => Except.error PyErr.exc

/-- Same loop, returning the surviving place records themselves (used to state
the dedup invariants; raises exactly where `dedupRows` does). -/
def dedupPlaces (seen : List PyVal) : List PyVal → Except PyErr (List PyVal)
  | [] => Except.ok []
  | place :: rest =>
    match place with
    | PyVal.dict kvs =>
      let pid := dGet kvs "placeId" (PyVal.str "")
      if truthy pid && hashable pid && pyMem pid seen then
        dedupPlaces seen rest
      else if hashable pid then
        if truthy (dGet kvs "permanentlyClosed" PyVal.none) then
          dedupPlaces (pid :: seen) rest
        else
          match extract_row kvs with
          | Except.error e => Except.error e
          | Except.ok _ =>
            match dedupPlaces (pid :: seen) rest with
            | Except.error e => Except.error e
            | Except.ok ps => Except.ok (PyVal.dict kvs :: ps)
      else Except.error PyErr.exc
    | _ => Except.error PyErr.exc

/-- Sort key `int(r["Review Count"] or 0)` (may raise `ValueError`). -/
def sortKey (r : Row) : Except PyErr Int :=
  pyInt (pyOr r.reviewCount (PyVal.int 0))

/-- CPython `list.sort(key=...)` computes every key first; an exception in the
key function aborts the sort. -/
def keyRows : List Row → Except PyErr (List (Int × Row))
  | [] => Except.ok []
  | r :: rs =>
    match sortKey r with
    | Except.error e => Except.error e
    | Except.ok k =>
      match keyRows rs with
      | Except.error e => Except.error e
      | Except.ok rest => Except.ok ((k, r) :: rest)

/-- Stable insertion (descending by key): a new element goes before the first
position whose key is not larger, keeping the relative order of equal keys.
Any stable sort computes the same list, so this models CPython's stable
`list.sort(..., reverse=True)` extensionally. -/
def insDesc (x : Int × Row) : List (Int × Row) → List (Int × Row)
  | [] => [x]
  | y :: ys => if y.1 > x.1 then y :: insDesc x ys else x :: y :: ys

def isortDesc : List (Int × Row) → List (Int × Row)
  | [] => []
  | x :: xs => insDesc x (isortDesc xs)

/-- `rows.sort(key=lambda r: int(r["Review Count"] or 0), reverse=True)`. -/
def sortRows (rows : List Row) : Except PyErr (List Row) :=
  match keyRows rows with
  | Except.error e => Except.error e
  | Except.ok kr => Except.ok ((isortDesc kr).map Prod.snd)

/-- The whole record-sequence-to-rows transformation of `process_niche`
(dedup + closed filter + field mapping + sort). -/
def transform (data : List PyVal) : Except PyErr (List Row) :=
  match dedupRows [] data with
  | Except.error e => Except.error e
  | Except.ok rows => sortRows rows

def PREVIEW_ROWS : Nat := 10

/-- Result of one niche: the returned count and, when the run reached the
write phase, the rows written to the full CSV and to the preview CSV. -/
structure NicheOut where
  count : Nat
  written : Option (List Row × List Row)
deriving Repr

/-- `process_niche`, over the content of the niche's raw file
(`Option.none` = file missing).  The early returns (missing file,
extraction returning `None`) yield count 0 with nothing written; an
uncaught exception propagates. -/
def process_niche (input : Option String) : Except PyErr NicheOut :=
  match input with
  | Option.none => Except.ok ⟨0, Option.none⟩
  | Option.some raw =>
    match extract_json_from_raw (pyStrip raw) with
    | Except.error e => Except.error e
    | Except.ok Option.none => Except.ok ⟨0, Option.none⟩
    | Except.ok (Option.some (PyVal.list data)) =>
      match transform data with
      | Except.error e => Except.error e
      | Except.ok rows =>
        Except.ok ⟨rows.length, Option.some (rows, rows.take PREVIEW_ROWS)⟩
    | Except.ok (Option.some _) => Except.error PyErr.exc

/-- The configured niches (key, display label), in registry order. -/
def NICHES : List (String × String) :=
  [("dentists", "Dentists — Top US Cities"),
   ("plumbers", "Plumbers — Top US Cities"),
   ("realtors", "Real Estate Agents — Top US Cities"),
   ("restaurants", "Restaurants — Top US Cities"),
   ("gyms", "Gyms & Fitness — Top US Cities")]

def NICHE_KEYS : List String :=
  NICHES.map Prod.fst

/-- Count returned by a finished niche; an aborted niche never reports. -/
def pnCount (e : Except PyErr NicheOut) : Nat :=
  match e with
  | Except.ok r => r.count
  | Except.error _ => 0

/-- The `main` loop over a filesystem (niche key to raw content): the stats
summary is written only after every niche has been processed, so an uncaught
exception in any niche aborts the run with no stats at all. -/
def runNiches (fs : String → Option String) : List String → Except PyErr (List (String × Nat))
  | [] => Except.ok []
  | k :: ks =>
    match process_niche (fs k) with
    | Except.error e => Except.error e
    | Except.ok r =>
      match runNiches fs ks with
      | Except.error e => Except.error e
      | Except.ok rest => Except.ok ((k, r.count) :: rest)

/-- `main()`: process every configured niche, then produce the stats map. -/
def runMain (fs : String → Option String) : Except PyErr (List (String × Nat)) :=
  runNiches fs NICHE_KEYS

/-! Derived total functions and predicates used to state the claims. -/

/-- The `placeId` of a record as the loop reads it (total wrapper; only ever
applied to dict records in the proofs). -/
def pidT : PyVal → PyVal
  | PyVal.dict kvs => dGet kvs "placeId" (PyVal.str "")
  | _ => PyVal.none

/-- The all-defaults row: what `extract_row` produces when every field is
missing. -/
def blankRow : Row :=
  ⟨PyVal.str "", PyVal.str "", PyVal.str "", PyVal.str "", PyVal.str "",
   PyVal.str "", PyVal.str "", PyVal.str "", PyVal.str "", PyVal.str "",
   PyVal.str "", PyVal.str ""⟩

/-- Total wrapper of `extract_row` (only ever applied where it succeeds). -/
def extract_rowT : PyVal → Row
  | PyVal.dict kvs =>
    match extract_row kvs with
    | Except.ok r => r
    | Except.error _ => blankRow
  | _ => blankRow

/-- Total wrapper of the sort key (only ever applied where it succeeds). -/
def keyT (r : Row) : Int :=
  match sortKey r with
  | Except.ok k => k
  | Except.error _ => 0

/-- A location value on which `extract_row` cannot raise: falsy, or a dict. -/
def locOK (v : PyVal) : Prop :=
  truthy v = false ∨ ∃ l, v = PyVal.dict l

/-- A reviews-count value on which the sort key cannot raise: empty string
(the missing-field default), an integer, or a boolean. -/
def rcOK (v : PyVal) : Prop :=
  v = PyVal.str "" ∨ (∃ n, v = PyVal.int n) ∨ (∃ b, v = PyVal.bool b)

/-- A record none of the transformation steps can raise on. -/
def okRecord (p : PyVal) : Prop :=
  ∃ kvs, p = PyVal.dict kvs ∧
    hashable (dGet kvs "placeId" (PyVal.str "")) = true ∧
    locOK (dGet kvs "location" (PyVal.dict [])) ∧
    rcOK (dGet kvs "reviewsCount" (PyVal.str ""))

/-- Whether a modelled Python computation finished without an exception. -/
def exOk {α : Type} : Except PyErr α → Bool
  | Except.ok _ => true
  | Except.error _ => false

/-- The input field names `extract_row` reads. -/
def fieldKeys : List String :=
  ["title", "categoryName", "address", "city", "state", "postalCode",
   "phone", "website", "totalScore", "reviewsCount", "location"]

/-! Concrete instances used by the claim witnesses and counterexamples. -/

/-- A row whose only populated column is the given review count. -/
def rowRC (v : PyVal) : Row :=
  ⟨PyVal.str "", PyVal.str "", PyVal.str "", PyVal.str "", PyVal.str "",
   PyVal.str "", PyVal.str "", PyVal.str "", PyVal.str "", v,
   PyVal.str "", PyVal.str ""⟩

/-- A row whose only populated column is the business name "A". -/
def rowTitleA : Row :=
  ⟨PyVal.str "A", PyVal.str "", PyVal.str "", PyVal.str "", PyVal.str "",
   PyVal.str "", PyVal.str "", PyVal.str "", PyVal.str "", PyVal.str "",
   PyVal.str "", PyVal.str ""⟩

def recA : PyVal :=
  PyVal.dict [("placeId", PyVal.str "x"), ("reviewsCount", PyVal.int 2)]

def recB : PyVal :=
  PyVal.dict [("placeId", PyVal.str "x"), ("reviewsCount", PyVal.int 9)]

def dataC4 : List PyVal :=
  [recA, recB, PyVal.dict []]

def psC4 : List PyVal :=
  [recA, PyVal.dict []]

def dataC8 : List PyVal :=
  [PyVal.dict [("title", PyVal.str "X"), ("reviewsCount", PyVal.int 5)], PyVal.dict []]

def rowsC6 : List Row :=
  [rowRC (PyVal.int 5), rowRC (PyVal.int 0), rowRC (PyVal.str ""), rowRC (PyVal.int 12)]

def outC6 : List Row :=
  [rowRC (PyVal.int 12), rowRC (PyVal.int 5), rowRC (PyVal.int 0), rowRC (PyVal.str "")]

def inputC7 : Option String :=
  Option.some "[\x7b\"title\":\"A\"\x7d]"

/-- A filesystem whose dentists file holds content strategy 1 accepts but
cannot parse. -/
def fsBad : String → Option String :=
  fun k => if k = "dentists" then Option.some "[\x7b" else Option.none

def contentC5 : String :=
  "some prose [\x7b\"title\":\"A\",\"placeId\":\"1\"\x7d] trailing junk"

def preC5 : List Char :=
  String.data "some prose "

def spanC5 : List Char :=
  String.data "[\x7b\"title\":\"A\",\"placeId\":\"1\"\x7d]"

def postC5 : List Char :=
  String.data " trailing junk"

def arrC5 : PyVal :=
  PyVal.list [PyVal.dict [("title", PyVal.str "A"), ("placeId", PyVal.str "1")]]

/-! Helper lemmas about the scalar-value library. -/

theorem bool_ne_true_of_eq_false {b : Bool} (h : b = false) : ¬ b = true := by
  simp [h]

theorem scalarEq_symm (x y : PyVal) : scalarEq x y = scalarEq y x := by
  cases x <;> cases y <;> simp [scalarEq, beq_iff_eq, eq_comm]

theorem scalarEq_canon (x y : PyVal) (hx : hashable x = true) (hy : hashable y = true) :
    scalarEq x y = true ↔ canon x = canon y := by
  cases x <;> cases y <;> simp_all [scalarEq, canon, hashable, beq_iff_eq]
  rename_i a b
  cases a <;> cases b <;> simp

theorem hashable_of_scalarEq {x y : PyVal} (h : scalarEq x y = true) :
    hashable x = true ∧ hashable y = true := by
  cases x <;> cases y <;> simp_all [scalarEq, hashable]

theorem truthy_canon (x : PyVal) : truthy (canon x) = truthy x := by
  cases x <;> simp [canon, truthy]
  rename_i b
  cases b <;> simp

theorem truthy_of_scalarEq {x y : PyVal} (h : scalarEq x y = true) :
    truthy x = truthy y := by
  obtain ⟨hx, hy⟩ := hashable_of_scalarEq h
  have hc := (scalarEq_canon x y hx hy).mp h
  rw [← truthy_canon x, ← truthy_canon y, hc]

theorem scalarEq_refl {x : PyVal} (hx : hashable x = true) : scalarEq x x = true :=
  (scalarEq_canon x x hx hx).mpr rfl

theorem scalarEq_trans {x y z : PyVal} (hxy : scalarEq x y = true)
    (hyz : scalarEq y z = true) : scalarEq x z = true := by
  obtain ⟨hx, hy⟩ := hashable_of_scalarEq hxy
  obtain ⟨_, hz⟩ := hashable_of_scalarEq hyz
  exact (scalarEq_canon x z hx hz).mpr
    (((scalarEq_canon x y hx hy).mp hxy).trans ((scalarEq_canon y z hy hz).mp hyz))

theorem pyMem_cons (x w : PyVal) (l : List PyVal) :
    pyMem x (w :: l) = (scalarEq x w || pyMem x l) := by
  simp [pyMem]

theorem pyMem_congr {x y : PyVal} (hxy : scalarEq x y = true) (l : List PyVal)
    (hl : ∀ w ∈ l, hashable w = true) : pyMem x l = pyMem y l := by
  obtain ⟨hx, hy⟩ := hashable_of_scalarEq hxy
  induction l with
  | nil => rfl
  | cons w ws ih =>
    have hw : hashable w = true := hl w (List.mem_cons_self w ws)
    have hstep : scalarEq x w = scalarEq y w := by
      cases hxw : scalarEq x w with
      | true =>
        exact ((scalarEq_canon y w hy hw).mpr
          ((((scalarEq_canon x y hx hy).mp hxy).symm).trans
            ((scalarEq_canon x w hx hw).mp hxw))).symm
      | false =>
        cases hyw : scalarEq y w with
        | false => rfl
        | true =>
          have hxw2 : scalarEq x w = true := scalarEq_trans hxy hyw
          rw [hxw] at hxw2
          exact hxw2
    rw [pyMem_cons, pyMem_cons, hstep, ih (fun w hw2 => hl w (List.mem_cons_of_mem _ hw2))]

/-! Lemmas about the stable descending insertion sort. -/

theorem insDesc_perm (x : Int × Row) (l : List (Int × Row)) :
    (insDesc x l).Perm (x :: l) := by
  induction l with
  | nil => simp [insDesc]
  | cons y ys ih =>
    by_cases h : y.1 > x.1
    · simp only [insDesc, if_pos h]
      exact (ih.cons y).trans (List.Perm.swap x y ys)
    · simp only [insDesc, if_neg h]
      exact List.Perm.refl _

theorem isortDesc_perm (l : List (Int × Row)) : (isortDesc l).Perm l := by
  induction l with
  | nil => simp [isortDesc]
  | cons x xs ih =>
    exact (insDesc_perm x (isortDesc xs)).trans (ih.cons x)

theorem mem_insDesc {z x : Int × Row} {l : List (Int × Row)}
    (h : z ∈ insDesc x l) : z = x ∨ z ∈ l := by
  have := (insDesc_perm x l).mem_iff.mp h
  simpa using this

theorem insDesc_sorted {x : Int × Row} {l : List (Int × Row)}
    (h : l.Pairwise (fun a b => b.1 ≤ a.1)) :
    (insDesc x l).Pairwise (fun a b => b.1 ≤ a.1) := by
  induction l with
  | nil => simp [insDesc]
  | cons y ys ih =>
    rcases List.pairwise_cons.mp h with ⟨hy, hys⟩
    by_cases hgt : y.1 > x.1
    · simp only [insDesc, if_pos hgt]
      refine List.pairwise_cons.mpr ⟨?_, ih hys⟩
      intro z hz
      rcases mem_insDesc hz with rfl | hzys
      · exact le_of_lt hgt
      · exact hy z hzys
    · simp only [insDesc, if_neg hgt]
      refine List.pairwise_cons.mpr ⟨?_, h⟩
      intro z hz
      rcases List.mem_cons.mp hz with rfl | hzys
      · exact not_lt.mp hgt
      · exact le_trans (hy z hzys) (not_lt.mp hgt)

theorem isortDesc_sorted (l : List (Int × Row)) :
    (isortDesc l).Pairwise (fun a b => b.1 ≤ a.1) := by
  induction l with
  | nil => simp [isortDesc]
  | cons x xs ih => exact insDesc_sorted ih

theorem insDesc_filter (x : Int × Row) (l : List (Int × Row)) (k : Int) :
    (insDesc x l).filter (fun p => p.1 == k) =
      ((x :: l).filter (fun p => p.1 == k)) := by
  induction l with
  | nil => rfl
  | cons y ys ih =>
    by_cases hgt : y.1 > x.1
    · by_cases hxk : x.1 = k
      · have hyk : ¬ y.1 = k := by
          intro hyk
          rw [hxk] at hgt
          rw [hyk] at hgt
          exact lt_irrefl k hgt
        simp only [insDesc, if_pos hgt]
        simp [List.filter_cons, ih, hxk, hyk, beq_iff_eq]
      · simp only [insDesc, if_pos hgt]
        simp [List.filter_cons, ih, hxk, beq_iff_eq]
    · simp [insDesc, if_neg hgt]

theorem isortDesc_filter (l : List (Int × Row)) (k : Int) :
    (isortDesc l).filter (fun p => p.1 == k) = l.filter (fun p => p.1 == k) := by
  induction l with
  | nil => rfl
  | cons x xs ih =>
    calc (insDesc x (isortDesc xs)).filter (fun p => p.1 == k)
        = ((x :: isortDesc xs).filter (fun p => p.1 == k)) := insDesc_filter x (isortDesc xs) k
      _ = (x :: xs).filter (fun p => p.1 == k) := by
          simp [List.filter_cons, ih]

theorem keyRows_spec (rows : List Row) (kr : List (Int × Row))
    (h : keyRows rows = Except.ok kr) :
    kr.map Prod.snd = rows ∧ ∀ p ∈ kr, sortKey p.2 = Except.ok p.1 := by
  induction rows generalizing kr with
  | nil =>
    simp [keyRows] at h
    subst h
    simp
  | cons r rs ih =>
    simp only [keyRows] at h
    cases hk : sortKey r with
    | error e => rw [hk] at h; exact absurd h (by simp)
    | ok k =>
      rw [hk] at h
      cases hrest : keyRows rs with
      | error e => rw [hrest] at h; exact absurd h (by simp)
      | ok rest =>
        rw [hrest] at h
        simp only [Except.ok.injEq] at h
        subst h
        obtain ⟨h1, h2⟩ := ih rest hrest
        refine ⟨by simp [h1], ?_⟩
        intro p hp
        rcases List.mem_cons.mp hp with rfl | hp2
        · exact hk
        · exact h2 p hp2

/-! Lemmas about the dedup/closed-filter loop. -/

theorem dedupPlaces_count (v : PyVal) (hv : truthy v = true) :
    ∀ (data seen ps : List PyVal), (∀ w ∈ seen, hashable w = true) →
    dedupPlaces seen data = Except.ok ps →
    (pyMem v seen = true → ps.countP (fun p => scalarEq (pidT p) v) = 0) ∧
    ps.countP (fun p => scalarEq (pidT p) v) ≤ 1 := by
  intro data
  induction data with
  | nil =>
    intro seen ps hseen h
    simp [dedupPlaces] at h
    subst h
    simp
  | cons place rest ih =>
    intro seen ps hseen h
    cases place with
    | dict kvs =>
      simp only [dedupPlaces] at h
      by_cases h1 :
          (truthy (dGet kvs "placeId" (PyVal.str "")) &&
           hashable (dGet kvs "placeId" (PyVal.str "")) &&
           pyMem (dGet kvs "placeId" (PyVal.str "")) seen) = true
      · rw [if_pos h1] at h
        exact ih seen ps hseen h
      · rw [if_neg h1] at h
        by_cases h2 : hashable (dGet kvs "placeId" (PyVal.str "")) = true
        · rw [if_pos h2] at h
          have hseen2 : ∀ w ∈ dGet kvs "placeId" (PyVal.str "") :: seen, hashable w = true := by
            intro w hw
            rcases List.mem_cons.mp hw with rfl | hw2
            · exact h2
            · exact hseen w hw2
          by_cases h3 : truthy (dGet kvs "permanentlyClosed" PyVal.none) = true
          · rw [if_pos h3] at h
            obtain ⟨ihm, ihc⟩ := ih _ ps hseen2 h
            refine ⟨?_, ihc⟩
            intro hm
            refine ihm ?_
            rw [pyMem_cons]
            rw [hm]
            simp
          · rw [if_neg h3] at h
            cases hex : extract_row kvs with
            | error e => rw [hex] at h; exact absurd h (by simp)
            | ok r =>
              rw [hex] at h
              cases hdp : dedupPlaces (dGet kvs "placeId" (PyVal.str "") :: seen) rest with
              | error e => rw [hdp] at h; exact absurd h (by simp)
              | ok ps2 =>
                rw [hdp] at h
                simp only [Except.ok.injEq] at h
                subst h
                obtain ⟨ihm, ihc⟩ := ih _ ps2 hseen2 hdp
                have hpidT : pidT (PyVal.dict kvs) = dGet kvs "placeId" (PyVal.str "") := rfl
                by_cases hq : scalarEq (dGet kvs "placeId" (PyVal.str "")) v = true
                · have hhash := hashable_of_scalarEq hq
                  have htr : truthy (dGet kvs "placeId" (PyVal.str "")) = true := by
                    rw [truthy_of_scalarEq hq]
                    exact hv
                  constructor
                  · intro hm
                    exfalso
                    refine h1 ?_
                    rw [htr, h2]
                    rw [pyMem_congr hq seen hseen]
                    rw [hm]
                    rfl
                  · have hz : ps2.countP (fun p => scalarEq (pidT p) v) = 0 := by
                      refine ihm ?_
                      rw [pyMem_cons]
                      rw [scalarEq_symm] at hq
                      rw [hq]
                      rfl
                    rw [List.countP_cons, hpidT, hq, hz]
                    simp
                · have hq2 : scalarEq (pidT (PyVal.dict kvs)) v = false := by
                    rw [hpidT]
                    exact Bool.not_eq_true _ ▸ (Bool.eq_false_iff.mpr hq)
                  constructor
                  · intro hm
                    have hz : ps2.countP (fun p => scalarEq (pidT p) v) = 0 := by
                      refine ihm ?_
                      rw [pyMem_cons, hm]
                      simp
                    rw [List.countP_cons, hq2, hz]
                    simp
                  · rw [List.countP_cons, hq2]
                    simpa using ihc
        · rw [if_neg h2] at h
          exact absurd h (by simp)
    | none => exact absurd h (by simp [dedupPlaces])
    | bool b => exact absurd h (by simp [dedupPlaces])
    | int n => exact absurd h (by simp [dedupPlaces])
    | str s => exact absurd h (by simp [dedupPlaces])
    | list xs => exact absurd h (by simp [dedupPlaces])

theorem dedupPlaces_first :
    ∀ (data seen ps : List PyVal), (∀ w ∈ seen, hashable w = true) →
    dedupPlaces seen data = Except.ok ps →
    ∀ p ∈ ps, truthy (pidT p) = true →
      pyMem (pidT p) seen = false ∧
      data.find? (fun q => scalarEq (pidT q) (pidT p)) = Option.some p := by
  intro data
  induction data with
  | nil =>
    intro seen ps hseen h
    simp [dedupPlaces] at h
    subst h
    intro p hp
    exact absurd hp (by simp)
  | cons place rest ih =>
    intro seen ps hseen h
    cases place with
    | dict kvs =>
      simp only [dedupPlaces] at h
      by_cases h1 :
          (truthy (dGet kvs "placeId" (PyVal.str "")) &&
           hashable (dGet kvs "placeId" (PyVal.str "")) &&
           pyMem (dGet kvs "placeId" (PyVal.str "")) seen) = true
      · rw [if_pos h1] at h
        intro p hp htr
        obtain ⟨hmem, hfind⟩ := ih seen ps hseen h p hp htr
        refine ⟨hmem, ?_⟩
        have hhead : scalarEq (pidT (PyVal.dict kvs)) (pidT p) = false := by
          cases hq : scalarEq (pidT (PyVal.dict kvs)) (pidT p) with
          | false => rfl
          | true =>
            exfalso
            obtain ⟨hhk, hpk⟩ := hashable_of_scalarEq hq
            have hmempid : pyMem (dGet kvs "placeId" (PyVal.str "")) seen = true := by
              have hand := h1
              rw [Bool.and_eq_true, Bool.and_eq_true] at hand
              exact hand.2
            have : pyMem (pidT p) seen = true := by
              rw [← pyMem_congr hq seen hseen]
              exact hmempid
            rw [this] at hmem
            exact absurd hmem (by simp)
        exact Eq.trans (List.find?_cons_of_neg _ (bool_ne_true_of_eq_false hhead)) hfind
      · rw [if_neg h1] at h
        by_cases h2 : hashable (dGet kvs "placeId" (PyVal.str "")) = true
        · rw [if_pos h2] at h
          have hseen2 : ∀ w ∈ dGet kvs "placeId" (PyVal.str "") :: seen, hashable w = true := by
            intro w hw
            rcases List.mem_cons.mp hw with rfl | hw2
            · exact h2
            · exact hseen w hw2
          by_cases h3 : truthy (dGet kvs "permanentlyClosed" PyVal.none) = true
          · rw [if_pos h3] at h
            intro p hp htr
            obtain ⟨hmem, hfind⟩ := ih _ ps hseen2 h p hp htr
            rw [pyMem_cons] at hmem
            rw [Bool.or_eq_false_iff] at hmem
            refine ⟨hmem.2, ?_⟩
            have hhead : scalarEq (pidT (PyVal.dict kvs)) (pidT p) = false := by
              rw [scalarEq_symm]
              exact hmem.1
            exact Eq.trans (List.find?_cons_of_neg _ (bool_ne_true_of_eq_false hhead)) hfind
          · rw [if_neg h3] at h
            cases hex : extract_row kvs with
            | error e => rw [hex] at h; exact absurd h (by simp)
            | ok r =>
              rw [hex] at h
              cases hdp : dedupPlaces (dGet kvs "placeId" (PyVal.str "") :: seen) rest with
              | error e => rw [hdp] at h; exact absurd h (by simp)
              | ok ps2 =>
                rw [hdp] at h
                simp only [Except.ok.injEq] at h
                subst h
                intro p hp htr
                rcases List.mem_cons.mp hp with rfl | hp2
                · have hrefl : scalarEq (pidT (PyVal.dict kvs)) (pidT (PyVal.dict kvs)) = true :=
                    scalarEq_refl h2
                  refine ⟨?_, ?_⟩
                  · cases hm : pyMem (pidT (PyVal.dict kvs)) seen with
                    | false => rfl
                    | true =>
                      exfalso
                      refine h1 ?_
                      rw [Bool.and_eq_true, Bool.and_eq_true]
                      exact ⟨⟨htr, h2⟩, hm⟩
                  · exact List.find?_cons_of_pos _ hrefl
                · obtain ⟨hmem, hfind⟩ := ih _ ps2 hseen2 hdp p hp2 htr
                  rw [pyMem_cons] at hmem
                  rw [Bool.or_eq_false_iff] at hmem
                  refine ⟨hmem.2, ?_⟩
                  have hhead : scalarEq (pidT (PyVal.dict kvs)) (pidT p) = false := by
                    rw [scalarEq_symm]
                    exact hmem.1
                  exact Eq.trans (List.find?_cons_of_neg _ (bool_ne_true_of_eq_false hhead)) hfind
        · rw [if_neg h2] at h
          exact absurd h (by simp)
    | none => exact absurd h (by simp [dedupPlaces])
    | bool b => exact absurd h (by simp [dedupPlaces])
    | int n => exact absurd h (by simp [dedupPlaces])
    | str s => exact absurd h (by simp [dedupPlaces])
    | list xs => exact absurd h (by simp [dedupPlaces])

theorem dedupPlaces_keep :
    ∀ (data seen ps : List PyVal),
    dedupPlaces seen data = Except.ok ps →
    ∀ kvs, PyVal.dict kvs ∈ data →
      truthy (dGet kvs "placeId" (PyVal.str "")) = false →
      truthy (dGet kvs "permanentlyClosed" PyVal.none) = false →
      PyVal.dict kvs ∈ ps := by
  intro data
  induction data with
  | nil =>
    intro seen ps h kvs hmem
    exact absurd hmem (by simp)
  | cons place rest ih =>
    intro seen ps h kvs hmem hfalsy hopen
    cases place with
    | dict kvs0 =>
      simp only [dedupPlaces] at h
      by_cases h1 :
          (truthy (dGet kvs0 "placeId" (PyVal.str "")) &&
           hashable (dGet kvs0 "placeId" (PyVal.str "")) &&
           pyMem (dGet kvs0 "placeId" (PyVal.str "")) seen) = true
      · rw [if_pos h1] at h
        rcases List.mem_cons.mp hmem with heq | hmem2
        · exfalso
          have hkk : kvs0 = kvs := by
            injection heq.symm
          rw [Bool.and_eq_true, Bool.and_eq_true] at h1
          rw [hkk] at h1
          rw [hfalsy] at h1
          exact Bool.false_ne_true h1.1.1
        · exact ih seen ps h kvs hmem2 hfalsy hopen
      · rw [if_neg h1] at h
        by_cases h2 : hashable (dGet kvs0 "placeId" (PyVal.str "")) = true
        · rw [if_pos h2] at h
          by_cases h3 : truthy (dGet kvs0 "permanentlyClosed" PyVal.none) = true
          · rw [if_pos h3] at h
            rcases List.mem_cons.mp hmem with heq | hmem2
            · exfalso
              have hkk : kvs0 = kvs := by
                injection heq.symm
              rw [hkk] at h3
              rw [hopen] at h3
              exact Bool.false_ne_true h3
            · exact ih _ ps h kvs hmem2 hfalsy hopen
          · rw [if_neg h3] at h
            cases hex : extract_row kvs0 with
            | error e => rw [hex] at h; exact absurd h (by simp)
            | ok r =>
              rw [hex] at h
              cases hdp : dedupPlaces (dGet kvs0 "placeId" (PyVal.str "") :: seen) rest with
              | error e => rw [hdp] at h; exact absurd h (by simp)
              | ok ps2 =>
                rw [hdp] at h
                simp only [Except.ok.injEq] at h
                subst h
                rcases List.mem_cons.mp hmem with heq | hmem2
                · rw [← heq]
                  exact List.mem_cons_self _ _
                · exact List.mem_cons_of_mem _ (ih _ ps2 hdp kvs hmem2 hfalsy hopen)
        · rw [if_neg h2] at h
          exact absurd h (by simp)
    | none => exact absurd h (by simp [dedupPlaces])
    | bool b => exact absurd h (by simp [dedupPlaces])
    | int n => exact absurd h (by simp [dedupPlaces])
    | str s => exact absurd h (by simp [dedupPlaces])
    | list xs => exact absurd h (by simp [dedupPlaces])

theorem dedupPlaces_rows :
    ∀ (data seen ps : List PyVal),
    dedupPlaces seen data = Except.ok ps →
    dedupRows seen data = Except.ok (ps.map extract_rowT) := by
  intro data
  induction data with
  | nil =>
    intro seen ps h
    simp [dedupPlaces] at h
    subst h
    simp [dedupRows]
  | cons place rest ih =>
    intro seen ps h
    cases place with
    | dict kvs =>
      simp only [dedupPlaces] at h
      simp only [dedupRows]
      by_cases h1 :
          (truthy (dGet kvs "placeId" (PyVal.str "")) &&
           hashable (dGet kvs "placeId" (PyVal.str "")) &&
           pyMem (dGet kvs "placeId" (PyVal.str "")) seen) = true
      · rw [if_pos h1] at h
        rw [if_pos h1]
        exact ih seen ps h
      · rw [if_neg h1] at h
        rw [if_neg h1]
        by_cases h2 : hashable (dGet kvs "placeId" (PyVal.str "")) = true
        · rw [if_pos h2] at h
          rw [if_pos h2]
          by_cases h3 : truthy (dGet kvs "permanentlyClosed" PyVal.none) = true
          · rw [if_pos h3] at h
            rw [if_pos h3]
            exact ih _ ps h
          · rw [if_neg h3] at h
            rw [if_neg h3]
            cases hex : extract_row kvs with
            | error e => rw [hex] at h; exact absurd h (by simp)
            | ok r =>
              rw [hex] at h
              cases hdp : dedupPlaces (dGet kvs "placeId" (PyVal.str "") :: seen) rest with
              | error e => rw [hdp] at h; exact absurd h (by simp)
              | ok ps2 =>
                rw [hdp] at h
                simp only [Except.ok.injEq] at h
                subst h
                rw [ih _ ps2 hdp]
                simp [extract_rowT, hex]
        · rw [if_neg h2] at h
          exact absurd h (by simp)
    | none => exact absurd h (by simp [dedupPlaces])
    | bool b => exact absurd h (by simp [dedupPlaces])
    | int n => exact absurd h (by simp [dedupPlaces])
    | str s => exact absurd h (by simp [dedupPlaces])
    | list xs => exact absurd h (by simp [dedupPlaces])

/-! Inversion and totality lemmas for the sort and the whole transform. -/

theorem sortRows_ok (rows : List Row) (out : List Row)
    (h : sortRows rows = Except.ok out) :
    ∃ kr, keyRows rows = Except.ok kr ∧ out = (isortDesc kr).map Prod.snd := by
  unfold sortRows at h
  cases hk : keyRows rows with
  | error e => rw [hk] at h; exact absurd h (by simp)
  | ok kr =>
    rw [hk] at h
    simp only [Except.ok.injEq] at h
    exact ⟨kr, rfl, h.symm⟩

theorem transform_ok (data : List PyVal) (out : List Row)
    (h : transform data = Except.ok out) :
    ∃ rows, dedupRows [] data = Except.ok rows ∧ sortRows rows = Except.ok out := by
  unfold transform at h
  cases hd : dedupRows [] data with
  | error e => rw [hd] at h; exact absurd h (by simp)
  | ok rows => rw [hd] at h; exact ⟨rows, rfl, h⟩

theorem keyT_of {r : Row} {k : Int} (h : sortKey r = Except.ok k) : keyT r = k := by
  simp [keyT, h]

theorem extract_row_ok (kvs : List (String × PyVal))
    (hloc : locOK (dGet kvs "location" (PyVal.dict []))) :
    ∃ r, extract_row kvs = Except.ok r ∧
      r.reviewCount = dGet kvs "reviewsCount" (PyVal.str "") := by
  unfold extract_row pyOr
  rcases hloc with hfal | ⟨l, hl⟩
  · rw [if_neg (bool_ne_true_of_eq_false hfal)]
    exact ⟨_, rfl, rfl⟩
  · rw [hl]
    by_cases ht : truthy (PyVal.dict l) = true
    · rw [if_pos ht]
      exact ⟨_, rfl, rfl⟩
    · rw [if_neg ht]
      exact ⟨_, rfl, rfl⟩

theorem sortKey_ok_of_rcOK {v : PyVal} (hv : rcOK v) (r : Row)
    (hr : r.reviewCount = v) : ∃ k, sortKey r = Except.ok k := by
  unfold sortKey pyOr
  rw [hr]
  rcases hv with h1 | ⟨n, h2⟩ | ⟨b, h3⟩
  · rw [h1]
    exact ⟨0, rfl⟩
  · rw [h2]
    by_cases ht : truthy (PyVal.int n) = true
    · rw [if_pos ht]
      exact ⟨n, rfl⟩
    · rw [if_neg ht]
      exact ⟨0, rfl⟩
  · rw [h3]
    cases b with
    | true => exact ⟨1, rfl⟩
    | false => exact ⟨0, rfl⟩

theorem keyRows_total (rows : List Row) (h : ∀ r ∈ rows, ∃ k, sortKey r = Except.ok k) :
    ∃ kr, keyRows rows = Except.ok kr := by
  induction rows with
  | nil => exact ⟨[], rfl⟩
  | cons r rs ih =>
    obtain ⟨k, hk⟩ := h r (List.mem_cons_self _ _)
    obtain ⟨kr, hkr⟩ := ih (fun r2 h2 => h r2 (List.mem_cons_of_mem _ h2))
    refine ⟨(k, r) :: kr, ?_⟩
    simp only [keyRows]
    rw [hk, hkr]

theorem dedupRows_total :
    ∀ (data : List PyVal) (seen : List PyVal), (∀ p ∈ data, okRecord p) →
    ∃ rows, dedupRows seen data = Except.ok rows ∧
      ∀ r ∈ rows, ∃ k, sortKey r = Except.ok k := by
  intro data
  induction data with
  | nil =>
    intro seen _
    exact ⟨[], rfl, by simp⟩
  | cons place rest ih =>
    intro seen h
    obtain ⟨kvs, hplace, hpid, hloc, hrc⟩ := h place (List.mem_cons_self _ _)
    subst hplace
    simp only [dedupRows]
    by_cases h1 :
        (truthy (dGet kvs "placeId" (PyVal.str "")) &&
         hashable (dGet kvs "placeId" (PyVal.str "")) &&
         pyMem (dGet kvs "placeId" (PyVal.str "")) seen) = true
    · rw [if_pos h1]
      exact ih seen (fun p hp => h p (List.mem_cons_of_mem _ hp))
    · rw [if_neg h1, if_pos hpid]
      by_cases h3 : truthy (dGet kvs "permanentlyClosed" PyVal.none) = true
      · rw [if_pos h3]
        exact ih _ (fun p hp => h p (List.mem_cons_of_mem _ hp))
      · rw [if_neg h3]
        obtain ⟨r, hr, hrc2⟩ := extract_row_ok kvs hloc
        rw [hr]
        obtain ⟨rows2, hrows2, hkeys2⟩ := ih _ (fun p hp => h p (List.mem_cons_of_mem _ hp))
        rw [hrows2]
        refine ⟨r :: rows2, rfl, ?_⟩
        intro r2 hr2
        rcases List.mem_cons.mp hr2 with rfl | hmem2
        · exact sortKey_ok_of_rcOK hrc r2 hrc2
        · exact hkeys2 r2 hmem2

theorem transform_total (data : List PyVal) (h : ∀ p ∈ data, okRecord p) :
    exOk (transform data) = true := by
  obtain ⟨rows, hrows, hkeys⟩ := dedupRows_total data [] h
  obtain ⟨kr, hkr⟩ := keyRows_total rows hkeys
  simp [transform, hrows, sortRows, hkr, exOk]

/-! Lemmas for the top-level run. -/

theorem runNiches_ok (fs : String → Option String) :
    ∀ ks : List String, (∀ k ∈ ks, exOk (process_niche (fs k)) = true) →
    runNiches fs ks =
      Except.ok (ks.map (fun k => (k, pnCount (process_niche (fs k))))) := by
  intro ks
  induction ks with
  | nil => intro _; rfl
  | cons k ks ih =>
    intro h
    have hk := h k (List.mem_cons_self _ _)
    cases hp : process_niche (fs k) with
    | error e =>
      rw [hp] at hk
      exact absurd hk (by simp [exOk])
    | ok r =>
      simp only [runNiches]
      rw [hp, ih (fun k2 hk2 => h k2 (List.mem_cons_of_mem _ hk2))]
      simp [pnCount, hp]

/-! Lemmas about the strategy-2 scanning machinery. -/

theorem startsList_append {pat s : List Char} (t : List Char)
    (h : startsList pat s = true) : startsList pat (s ++ t) = true := by
  induction pat generalizing s with
  | nil => rfl
  | cons p ps ih =>
    cases s with
    | nil => exact absurd h (by simp [startsList])
    | cons c cs =>
      simp only [startsList, List.cons_append] at h ⊢
      rw [Bool.and_eq_true] at h
      rw [h.1]
      simp only [Bool.true_and]
      exact ih h.2

theorem findSub_spec (pat : List Char) :
    ∀ (pre rest : List Char),
    (∀ i, i < pre.length → startsList pat ((pre ++ rest).drop i) = false) →
    startsList pat rest = true →
    findSub (pre ++ rest) pat = Option.some pre.length := by
  intro pre
  induction pre with
  | nil =>
    intro rest h0 hs
    cases rest with
    | nil => simp [findSub, hs]
    | cons c cs => simp [findSub, hs]
  | cons c cs ih =>
    intro rest h0 hs
    have hhead : startsList pat (c :: (cs ++ rest)) = false := by
      have h00 := h0 0 (by simp)
      simpa using h00
    simp only [List.cons_append, findSub, List.append_eq]
    rw [if_neg (bool_ne_true_of_eq_false hhead)]
    have hrec := ih rest ?_ hs
    · rw [hrec]
      simp
    · intro i hi
      have hsh := h0 (i + 1) (by simpa using Nat.succ_lt_succ hi)
      simpa using hsh

theorem bracketScan_append :
    ∀ (cs post : List Char) (d : Int) (n : Nat),
    bracketScan cs d = Option.some n →
    bracketScan (cs ++ post) d = Option.some n := by
  intro cs
  induction cs with
  | nil =>
    intro post d n h
    exact absurd h (by simp [bracketScan])
  | cons c rest ih =>
    intro post d n h
    simp only [bracketScan, List.cons_append, List.append_eq] at h ⊢
    by_cases hb : (c == '[') = true
    · rw [if_pos hb] at h ⊢
      cases hm : bracketScan rest (d + 1) with
      | none => rw [hm] at h; exact absurd h (by simp)
      | some m =>
        rw [hm] at h
        rw [ih post (d + 1) m hm]
        simpa using h
    · rw [if_neg hb] at h ⊢
      by_cases hb2 : (c == ']') = true
      · rw [if_pos hb2] at h ⊢
        by_cases hz : d - 1 = 0
        · rw [if_pos hz] at h ⊢
          exact h
        · rw [if_neg hz] at h ⊢
          cases hm : bracketScan rest (d - 1) with
          | none => rw [hm] at h; exact absurd h (by simp)
          | some m =>
            rw [hm] at h
            rw [ih post (d - 1) m hm]
            simpa using h
      · rw [if_neg hb2] at h ⊢
        cases hm : bracketScan rest d with
        | none => rw [hm] at h; exact absurd h (by simp)
        | some m =>
          rw [hm] at h
          rw [ih post d m hm]
          simpa using h

/-! The claims. -/

/-- C1, counterexample: for the content consisting of the two characters
array-open object-open, the lstripped content does begin with that marker and
the whole-content JSON parse fails, yet `extract_json_from_raw` raises
(models an uncaught `json.JSONDecodeError`) instead of returning null as the
claim asserts. -/
theorem claim_C1_counterexample :
    startsList (String.data "[\x7b") ((String.data "[\x7b").dropWhile pyWs) = true ∧
    json_loads "[\x7b" = Option.none ∧
    extract_json_from_raw "[\x7b" = Except.error PyErr.exc :=
  ⟨rfl, rfl, rfl⟩

/-- C1, amended: for every raw content string that, after trimming leading
whitespace, begins with array-open object-open, `extract_json_from_raw`
returns exactly the result of parsing the entire content as JSON when that
parse succeeds, and raises (the exception propagates, it does not fall
through to return null) exactly when that parse fails. -/
theorem claim_C1_amended (content : String)
    (h : startsList (String.data "[\x7b") (content.data.dropWhile pyWs) = true) :
    extract_json_from_raw content =
      (match json_loads content with
       | Option.some v => Except.ok (Option.some v)
       | Option.none => Except.error PyErr.exc) := by
  unfold extract_json_from_raw
  rw [if_pos h]

/-- C1, witness: the amended theorem applied to a concrete parseable content. -/
theorem claim_C1_witness :
    extract_json_from_raw "[\x7b\"a\":1\x7d]" =
      Except.ok (Option.some (PyVal.list [PyVal.dict [("a", PyVal.int 1)]])) := by
  rw [claim_C1_amended "[\x7b\"a\":1\x7d]" (by rfl)]
  rfl

/-- C3: for any two records both carrying placeId "abc", the first
permanently closed and the second not, the whole transform yields zero rows:
the closed record is dropped only after marking its id as seen, so the open
duplicate is then dropped by the dedup step. -/
theorem claim_C3 (kvs1 kvs2 : List (String × PyVal))
    (h1 : dGet kvs1 "placeId" (PyVal.str "") = PyVal.str "abc")
    (h2 : dGet kvs2 "placeId" (PyVal.str "") = PyVal.str "abc")
    (h3 : truthy (dGet kvs1 "permanentlyClosed" PyVal.none) = true)
    (h4 : truthy (dGet kvs2 "permanentlyClosed" PyVal.none) = false) :
    transform [PyVal.dict kvs1, PyVal.dict kvs2] = Except.ok [] := by
  have hded : dedupRows [] [PyVal.dict kvs1, PyVal.dict kvs2] = Except.ok [] := by
    simp only [dedupRows, h1, h2]
    rw [if_neg (show ¬((truthy (PyVal.str "abc") && hashable (PyVal.str "abc") &&
      pyMem (PyVal.str "abc") ([] : List PyVal)) = true) from by decide)]
    rw [if_pos (show hashable (PyVal.str "abc") = true from by decide)]
    rw [if_pos h3]
    rw [if_pos (show (truthy (PyVal.str "abc") && hashable (PyVal.str "abc") &&
      pyMem (PyVal.str "abc") [PyVal.str "abc"]) = true from by decide)]
  unfold transform
  rw [hded]
  rfl

/-- C3, witness: the theorem at two concrete records sharing placeId "abc". -/
theorem claim_C3_witness :
    transform [PyVal.dict [("placeId", PyVal.str "abc"), ("permanentlyClosed", PyVal.bool true)],
               PyVal.dict [("placeId", PyVal.str "abc")]] = Except.ok [] :=
  claim_C3 [("placeId", PyVal.str "abc"), ("permanentlyClosed", PyVal.bool true)]
    [("placeId", PyVal.str "abc")] (by rfl) (by rfl) (by rfl) (by rfl)

/-- C9: when the niche's input file is missing, or its (stripped) content
makes extraction return null, `process_niche` returns 0 without reaching
either CSV write, so previously existing outputs are untouched. -/
theorem claim_C9 (input : Option String)
    (h : input = Option.none ∨
      ∃ c, input = Option.some c ∧
        extract_json_from_raw (pyStrip c) = Except.ok Option.none) :
    process_niche input = Except.ok ⟨0, Option.none⟩ := by
  rcases h with rfl | ⟨c, rfl, hc⟩
  · rfl
  · simp only [process_niche]
    rw [hc]

/-- C9, witness: the theorem at content on which all three strategies fail. -/
theorem claim_C9_witness :
    process_niche (Option.some "hello") = Except.ok ⟨0, Option.none⟩ :=
  claim_C9 (Option.some "hello") (Or.inr ⟨"hello", rfl, by rfl⟩)

/-- C10: a record whose location field is present but null does not make
`extract_row` raise, and both Latitude and Longitude map to the empty
string, exactly as for an absent location. -/
theorem claim_C10 (kvs : List (String × PyVal))
    (h : dLookup kvs "location" = Option.some PyVal.none) :
    exOk (extract_row kvs) = true ∧
    ∀ r, extract_row kvs = Except.ok r →
      r.latitude = PyVal.str "" ∧ r.longitude = PyVal.str "" := by
  have hget : dGet kvs "location" (PyVal.dict []) = PyVal.none := by
    simp [dGet, h]
  have hrow : extract_row kvs = Except.ok
      ⟨dGet kvs "title" (PyVal.str ""),
       dGet kvs "categoryName" (PyVal.str ""),
       dGet kvs "address" (PyVal.str ""),
       dGet kvs "city" (PyVal.str ""),
       dGet kvs "state" (PyVal.str ""),
       dGet kvs "postalCode" (PyVal.str ""),
       dGet kvs "phone" (PyVal.str ""),
       dGet kvs "website" (PyVal.str ""),
       dGet kvs "totalScore" (PyVal.str ""),
       dGet kvs "reviewsCount" (PyVal.str ""),
       PyVal.str "", PyVal.str ""⟩ := by
    unfold extract_row
    rw [hget]
    rfl
  refine ⟨by rw [hrow]; rfl, ?_⟩
  intro r hr
  rw [hrow] at hr
  simp only [Except.ok.injEq] at hr
  subst hr
  exact ⟨rfl, rfl⟩

/-- C10, witness: the theorem at the one-field record with a null location. -/
theorem claim_C10_witness :
    exOk (extract_row [("location", PyVal.none)]) = true ∧
    blankRow.latitude = PyVal.str "" ∧ blankRow.longitude = PyVal.str "" :=
  ⟨(claim_C10 [("location", PyVal.none)] rfl).1,
   ((claim_C10 [("location", PyVal.none)] rfl).2 blankRow rfl).1,
   ((claim_C10 [("location", PyVal.none)] rfl).2 blankRow rfl).2⟩

/-- C5, counterexample: the content consisting of a valid anchored array
followed by trailing junk contains the anchor at index 0, the bracket scan
delimits the array, and that array parses on its own, yet
`extract_json_from_raw` raises instead of recovering it: the lstripped
content begins with array-open object-open, so strategy 1 parses the whole
content, fails on the trailing junk, and the exception propagates. -/
theorem claim_C5_counterexample :
    findSub (String.data "[\x7b\"title\":\"A\"\x7d] junk") markerChars = Option.some 0 ∧
    bracketScan (String.data "[\x7b\"title\":\"A\"\x7d]") 0 =
      Option.some (String.data "[\x7b\"title\":\"A\"\x7d]").length ∧
    json_loads "[\x7b\"title\":\"A\"\x7d]" =
      Option.some (PyVal.list [PyVal.dict [("title", PyVal.str "A")]]) ∧
    extract_json_from_raw "[\x7b\"title\":\"A\"\x7d] junk" = Except.error PyErr.exc :=
  ⟨rfl, rfl, rfl, rfl⟩

/-- C5, amended: for every content string that does not lstrip-start with
array-open object-open (so strategy 1 is not attempted), in which the first
occurrence of the anchor starts a span whose raw bracket nesting first
returns to zero exactly at the span's final character, and that span parses
as JSON, `extract_json_from_raw` recovers exactly that parse regardless of
the surrounding leading and trailing text. -/
theorem claim_C5_amended (content : String) (pre span post : List Char) (v : PyVal)
    (h0 : content.data = pre ++ span ++ post)
    (h1 : startsList (String.data "[\x7b") (content.data.dropWhile pyWs) = false)
    (h2 : ∀ i, i < pre.length → startsList markerChars (content.data.drop i) = false)
    (h3 : startsList markerChars span = true)
    (h4 : bracketScan span 0 = Option.some span.length)
    (h5 : json_loads (String.mk span) = Option.some v) :
    extract_json_from_raw content = Except.ok (Option.some v) := by
  unfold extract_json_from_raw
  rw [if_neg (bool_ne_true_of_eq_false h1)]
  have hfind : findSub content.data markerChars = Option.some pre.length := by
    rw [h0, List.append_assoc]
    refine findSub_spec markerChars pre (span ++ post) ?_ (startsList_append post h3)
    intro i hi
    have h2i := h2 i hi
    rw [h0, List.append_assoc] at h2i
    exact h2i
  rw [hfind]
  dsimp only
  have hdrop : content.data.drop pre.length = span ++ post := by
    rw [h0, List.append_assoc]
    exact List.drop_left pre (span ++ post)
  rw [hdrop]
  rw [bracketScan_append span post 0 span.length h4]
  dsimp only
  rw [List.take_left]
  rw [h5]

/-- C5, witness: the amended theorem at the spec's example content, prose
before and junk after the anchored one-record array. -/
theorem claim_C5_witness :
    extract_json_from_raw contentC5 = Except.ok (Option.some arrC5) :=
  claim_C5_amended contentC5 preC5 spanC5 postC5 arrC5 (by rfl) (by rfl)
    (by decide) (by rfl) (by rfl) (by rfl)

/-- C7: whenever `process_niche` reaches its write phase, the preview rows
are exactly the first min(10, length of full) rows of the full output: the
preview is a prefix of the full collection and has at most 10 rows. -/
theorem claim_C7 (input : Option String) (n : Nat) (full prev : List Row)
    (h : process_niche input = Except.ok ⟨n, Option.some (full, prev)⟩) :
    prev = full.take (min 10 full.length) ∧ prev <+: full ∧ prev.length ≤ 10 := by
  have hmain : prev = full.take 10 := by
    cases input with
    | none => simp [process_niche] at h
    | some raw =>
      simp only [process_niche] at h
      cases hex : extract_json_from_raw (pyStrip raw) with
      | error e => rw [hex] at h; exact absurd h (by simp)
      | ok ov =>
        rw [hex] at h
        cases ov with
        | none => simp at h
        | some v =>
          cases v with
          | list data =>
            dsimp only at h
            cases ht : transform data with
            | error e => rw [ht] at h; exact absurd h (by simp)
            | ok rows =>
              rw [ht] at h
              simp only [Except.ok.injEq, NicheOut.mk.injEq, Option.some.injEq,
                Prod.mk.injEq] at h
              obtain ⟨hn, hfull, hprev⟩ := h
              rw [← hfull, ← hprev]
              rfl
          | none => simp at h
          | bool b => simp at h
          | int m => simp at h
          | str s => simp at h
          | dict kvs => simp at h
  refine ⟨?_, ?_, ?_⟩
  · rw [hmain]
    rcases Nat.le_total 10 full.length with hle | hle
    · rw [min_eq_left hle]
    · rw [min_eq_right hle, List.take_length]
      exact List.take_of_length_le hle
  · rw [hmain]
    exact ⟨full.drop 10, List.take_append_drop 10 full⟩
  · rw [hmain, List.length_take]
    exact Nat.min_le_left _ _

/-- C7, witness: the theorem at a concrete one-record niche input. -/
theorem claim_C7_witness :
    [rowTitleA] = [rowTitleA].take (min 10 [rowTitleA].length) ∧
    [rowTitleA] <+: [rowTitleA] ∧ ([rowTitleA] : List Row).length ≤ 10 :=
  claim_C7 inputC7 1 [rowTitleA] [rowTitleA] (by rfl)

/-- C4: whenever the dedup/filter loop completes, (1) every truthy placeId
value accounts for at most one surviving record, (2) a surviving record with
a truthy placeId is the first record of the input carrying an equal placeId
(first occurrence wins, in input order prior to sorting), (3) a record with
a falsy (empty or missing) placeId that is not permanently closed always
survives (such records are never dropped as duplicates of each other), and
(4) the full output rows are exactly the survivors' rows up to the sort's
permutation. -/
theorem claim_C4 (data ps : List PyVal) (h : dedupPlaces [] data = Except.ok ps) :
    (∀ v, truthy v = true → ps.countP (fun p => scalarEq (pidT p) v) ≤ 1) ∧
    (∀ p ∈ ps, truthy (pidT p) = true →
      data.find? (fun q => scalarEq (pidT q) (pidT p)) = Option.some p) ∧
    (∀ kvs, PyVal.dict kvs ∈ data →
      truthy (dGet kvs "placeId" (PyVal.str "")) = false →
      truthy (dGet kvs "permanentlyClosed" PyVal.none) = false →
      PyVal.dict kvs ∈ ps) ∧
    (∀ out, transform data = Except.ok out → out.Perm (ps.map extract_rowT)) := by
  have hseen : ∀ w ∈ ([] : List PyVal), hashable w = true := by simp
  refine ⟨?_, ?_, ?_, ?_⟩
  · intro v hv
    exact (dedupPlaces_count v hv data [] ps hseen h).2
  · intro p hp htr
    exact (dedupPlaces_first data [] ps hseen h p hp htr).2
  · intro kvs hmem hf ho
    exact dedupPlaces_keep data [] ps h kvs hmem hf ho
  · intro out hout
    obtain ⟨rows, hrows, hsort⟩ := transform_ok data out hout
    have hrows2 := dedupPlaces_rows data [] ps h
    rw [hrows] at hrows2
    simp only [Except.ok.injEq] at hrows2
    obtain ⟨kr, hkr, hout2⟩ := sortRows_ok rows out hsort
    obtain ⟨hsnd, _⟩ := keyRows_spec rows kr hkr
    subst hout2
    have hconn : kr.map Prod.snd = ps.map extract_rowT := by rw [hsnd, hrows2]
    rw [← hconn]
    exact (isortDesc_perm kr).map Prod.snd

/-- C4, witness: the theorem at a three-record input with one duplicated
truthy placeId and one id-less record. -/
theorem claim_C4_witness :
    psC4.countP (fun p => scalarEq (pidT p) (PyVal.str "x")) ≤ 1 ∧
    dataC4.find? (fun q => scalarEq (pidT q) (pidT recA)) = Option.some recA ∧
    PyVal.dict [] ∈ psC4 ∧
    ([rowRC (PyVal.int 2), rowRC (PyVal.str "")] : List Row).Perm (psC4.map extract_rowT) := by
  have h := claim_C4 dataC4 psC4 (by rfl)
  refine ⟨h.1 (PyVal.str "x") (by decide), ?_, ?_, ?_⟩
  · exact h.2.1 recA (List.mem_cons_self _ _) (by decide)
  · exact h.2.2.1 [] (List.Mem.tail _ (List.Mem.tail _ (List.Mem.head _))) rfl rfl
  · exact h.2.2.2 [rowRC (PyVal.int 2), rowRC (PyVal.str "")] (by rfl)

/-- C6: whenever the sort step completes, the output is a permutation of the
input rows, is non-increasing in the numeric sort key (int of the Review
Count value, with a falsy value such as a missing-field empty string treated
as 0), and is stable: for every key value, the rows carrying that key appear
in exactly their input order; and a row whose Review Count is the empty
string has key 0. -/
theorem claim_C6 (rows out : List Row) (h : sortRows rows = Except.ok out) :
    out.Perm rows ∧
    List.Pairwise (fun a b => keyT b ≤ keyT a) out ∧
    (∀ k : Int, out.filter (fun r => keyT r == k) = rows.filter (fun r => keyT r == k)) ∧
    (∀ r : Row, r.reviewCount = PyVal.str "" → keyT r = 0) := by
  obtain ⟨kr, hkr, hout⟩ := sortRows_ok rows out h
  obtain ⟨hsnd, hkey⟩ := keyRows_spec rows kr hkr
  subst hout
  have hkeyT : ∀ p ∈ kr, keyT p.2 = p.1 := fun p hp => keyT_of (hkey p hp)
  have hkeyT2 : ∀ p ∈ isortDesc kr, keyT p.2 = p.1 := by
    intro p hp
    exact hkeyT p ((isortDesc_perm kr).mem_iff.mp hp)
  refine ⟨?_, ?_, ?_, ?_⟩
  · rw [← hsnd]
    exact (isortDesc_perm kr).map Prod.snd
  · rw [List.pairwise_map]
    refine List.Pairwise.imp_of_mem ?_ (isortDesc_sorted kr)
    intro a b ha hb hab
    rw [hkeyT2 a ha, hkeyT2 b hb]
    exact hab
  · intro k
    rw [List.filter_map, ← hsnd, List.filter_map]
    congr 1
    calc (isortDesc kr).filter ((fun r => keyT r == k) ∘ Prod.snd)
        = (isortDesc kr).filter (fun p => p.1 == k) := by
          refine List.filter_congr ?_
          intro p hp
          simp only [Function.comp]
          rw [hkeyT2 p hp]
      _ = kr.filter (fun p => p.1 == k) := isortDesc_filter kr k
      _ = kr.filter ((fun r => keyT r == k) ∘ Prod.snd) := by
          refine (List.filter_congr ?_).symm
          intro p hp
          simp only [Function.comp]
          rw [hkeyT p hp]
  · intro r hr
    have hk : sortKey r = Except.ok 0 := by
      unfold sortKey
      rw [hr]
      rfl
    exact keyT_of hk

/-- C6, witness: the theorem at four rows with review counts 5, 0, empty, 12. -/
theorem claim_C6_witness :
    sortRows rowsC6 = Except.ok outC6 ∧
    outC6.Perm rowsC6 ∧
    List.Pairwise (fun a b => keyT b ≤ keyT a) outC6 ∧
    outC6.filter (fun r => keyT r == 0) = rowsC6.filter (fun r => keyT r == 0) ∧
    keyT (rowRC (PyVal.str "")) = 0 := by
  have h := claim_C6 rowsC6 outC6 (by rfl)
  exact ⟨by rfl, h.1, h.2.1, h.2.2.1 0, h.2.2.2 (rowRC (PyVal.str "")) rfl⟩

/-- C8, counterexample: a record whose reviewsCount is the non-numeric
string "many" survives field mapping, dedup and the closed filter, but the
sort key int() raises (models `ValueError`), so the transformation is not
total on malformed records. -/
theorem claim_C8_counterexample :
    transform [PyVal.dict [("reviewsCount", PyVal.str "many")]] = Except.error PyErr.exc :=
  rfl

/-- C8, amended: the transformation steps are total on every record sequence
of mappings whose placeId value is hashable, whose location value is absent,
falsy or a mapping, and whose reviewsCount value is absent, the empty
string, an integer or a boolean; and missing fields default to the empty
string: on a record with none of the read fields present, field mapping
yields the all-empty row and never an error.  (A present non-numeric
reviewsCount makes the sort step raise, per the counterexample.) -/
theorem claim_C8_amended (data : List PyVal) (h : ∀ p ∈ data, okRecord p) :
    exOk (transform data) = true ∧
    ∀ kvs : List (String × PyVal), (∀ f ∈ fieldKeys, dLookup kvs f = Option.none) →
      extract_row kvs = Except.ok blankRow := by
  refine ⟨transform_total data h, ?_⟩
  intro kvs hf
  have hl : ∀ f ∈ fieldKeys, ∀ d : PyVal, dGet kvs f d = d := by
    intro f hfm d
    simp [dGet, hf f hfm]
  unfold extract_row
  rw [hl "location" (by simp [fieldKeys]) (PyVal.dict [])]
  rw [show pyOr (PyVal.dict []) (PyVal.dict []) = PyVal.dict [] from rfl]
  dsimp only
  rw [hl "title" (by simp [fieldKeys]) (PyVal.str ""),
      hl "categoryName" (by simp [fieldKeys]) (PyVal.str ""),
      hl "address" (by simp [fieldKeys]) (PyVal.str ""),
      hl "city" (by simp [fieldKeys]) (PyVal.str ""),
      hl "state" (by simp [fieldKeys]) (PyVal.str ""),
      hl "postalCode" (by simp [fieldKeys]) (PyVal.str ""),
      hl "phone" (by simp [fieldKeys]) (PyVal.str ""),
      hl "website" (by simp [fieldKeys]) (PyVal.str ""),
      hl "totalScore" (by simp [fieldKeys]) (PyVal.str ""),
      hl "reviewsCount" (by simp [fieldKeys]) (PyVal.str "")]
  rfl

/-- C8, witness: the amended theorem at a two-record well-formed input and
at the empty record. -/
theorem claim_C8_witness :
    exOk (transform dataC8) = true ∧
    extract_row ([] : List (String × PyVal)) = Except.ok blankRow := by
  have hh : ∀ p ∈ dataC8, okRecord p := by
    intro p hp
    rcases List.mem_cons.mp hp with rfl | hp2
    · exact ⟨_, rfl, by decide, Or.inl (by decide), Or.inr (Or.inl ⟨5, rfl⟩)⟩
    · rcases List.mem_cons.mp hp2 with rfl | hp3
      · exact ⟨[], rfl, by decide, Or.inl (by decide), Or.inl rfl⟩
      · exact absurd hp3 (by simp)
  have h := claim_C8_amended dataC8 hh
  exact ⟨h.1, h.2 [] (by intro f hfm; rfl)⟩

/-- C2, counterexample: with the dentists raw file holding content that
strategy 1 accepts but cannot parse, the per-niche step raises, the
exception escapes the whole run, and no stats summary is produced — the
run does not complete for the remaining niches. -/
theorem claim_C2_counterexample :
    runMain fsBad = Except.error PyErr.exc :=
  rfl

/-- C2, amended: when every niche's per-niche processing finishes without an
uncaught exception (in particular when each input file is missing or its
extraction cleanly returns null), the run completes and produces the stats
summary mapping each niche key, in registry order, to its full-output row
count; a niche whose file is missing reports 0.  (An uncaught exception in
any niche aborts the whole run before the stats are written, per the
counterexample.) -/
theorem claim_C2_amended (fs : String → Option String)
    (h : ∀ k ∈ NICHE_KEYS, exOk (process_niche (fs k)) = true) :
    runMain fs =
      Except.ok (NICHE_KEYS.map (fun k => (k, pnCount (process_niche (fs k))))) ∧
    ∀ k : String, fs k = Option.none → pnCount (process_niche (fs k)) = 0 := by
  refine ⟨runNiches_ok fs NICHE_KEYS h, ?_⟩
  intro k hk
  rw [hk]
  rfl

/-- C2, witness: the amended theorem on the empty filesystem — every niche
is skipped and the stats summary records 0 for each. -/
theorem claim_C2_witness :
    runMain (fun _ => Option.none) =
      Except.ok [("dentists", 0), ("plumbers", 0), ("realtors", 0),
                 ("restaurants", 0), ("gyms", 0)] := by
  have h := (claim_C2_amended (fun _ => Option.none) (by intro k hk; rfl)).1
  exact h.trans (by rfl)
